import Mathlib

/-!
Shallow embedding of the kaminsky-attack repository's DNS codec and attack
driver, with theorems checking the natural-language specification against it.

Conventions of the embedding:
* Rust `u8` / `u16` / `u32` values are `Nat`s; well-formedness predicates
  record the type bounds where a theorem needs them.
* Fallible Rust functions returning `Result<_, String>` become `PRes`
  (with a separate `panic` constructor for Rust panics: out-of-bounds
  indexing and `unwrap`), or `Except String _` when the Rust code cannot
  panic.
* Byte buffers are `List Nat` (each entry a byte value).
-/

/-- Outcome of running a fallible Rust function: a normal `Ok` value, a
normal `Err String`, or a Rust panic (index out of bounds, `unwrap`). -/
inductive PRes (α : Type) where
  | panic (msg : String) : PRes α
  | err (msg : String) : PRes α
  | ok (val : α) : PRes α
deriving DecidableEq, Repr

/-- Map over the `ok` value of a `PRes`. -/
def PRes.map {α β : Type} (f : α → β) : PRes α → PRes β
  | .panic m => .panic m
  | .err m => .err m
  | .ok v => .ok (f v)

theorem PRes.map_ok {α β : Type} (f : α → β) (v : α) :
    PRes.map f (.ok v) = .ok (f v) := rfl

namespace Dns

/-! ## Header (src/dns/header.rs) -/

/-- `Opcode` as in `header.rs`: closed enum {QUERY=0, IQUERY=1, STATUS=2}. -/
inductive Opcode where
  | QUERY
  | IQUERY
  | STATUS
deriving DecidableEq, Repr

/-- Numeric value of an opcode (`Opcode as u16` in the Rust source). -/
def Opcode.toNat : Opcode → Nat
  | .QUERY => 0
  | .IQUERY => 1
  | .STATUS => 2

/-- `Opcode::from_u16` (via `num_derive::FromPrimitive`): only 0, 1, 2 map
to an opcode, anything else is `None`. -/
def Opcode.from_u16 (n : Nat) : Option Opcode :=
  if n = 0 then some .QUERY
  else if n = 1 then some .IQUERY
  else if n = 2 then some .STATUS
  else none

/-- `Header` struct from `header.rs` (semantic, unpacked form). -/
structure Header where
  id : Nat
  qr : Bool
  opcode : Opcode
  aa : Bool
  tc : Bool
  rd : Bool
  ra : Bool
  z : Nat
  rcode : Nat
  qdcount : Nat
  ancount : Nat
  nscount : Nat
  arcount : Nat
deriving DecidableEq, Repr

/-- Rust type bounds of the `Header` fields: `id`, counts are `u16`;
`z`, `rcode` are `u8`. -/
def Header.Wf (h : Header) : Prop :=
  h.id < 65536 ∧ h.z < 256 ∧ h.rcode < 256 ∧ h.qdcount < 65536 ∧
    h.ancount < 65536 ∧ h.nscount < 65536 ∧ h.arcount < 65536

instance (h : Header) : Decidable h.Wf := by
  unfold Header.Wf; infer_instance

/-- `PackedHeader` from `header.rs`: the six 16-bit words. -/
structure PackedHeader where
  data : List Nat
deriving DecidableEq, Repr

/-- `ParsedHeader` from `header.rs`. -/
structure ParsedHeader where
  parsed_bytes : Nat
  header : Header
deriving DecidableEq, Repr

/-- `BITMASKS` table from `header.rs`. -/
def BITMASKS : List Nat := [0, 1, 3, 7, 15, 31, 63, 127]

/-- Boolean flag as a numeric bit (`flag as u16` in Rust). -/
def b2n (b : Bool) : Nat := if b then 1 else 0

/-- The `second_u16` flags word computed by `Header::pack`: XOR of the
fields shifted to their offsets (QR at bit 0, opcode at bits 1-4, AA at 5,
TC at 6, RD at 7, RA at 8, z forced to 0, RCODE at bits 12-15). -/
def packFlags (qr : Bool) (opcode : Opcode) (aa tc rd ra : Bool)
    (rcode : Nat) : Nat :=
  0 ^^^ b2n qr
    ^^^ ((opcode.toNat &&& BITMASKS.getD 4 0) <<< 1)
    ^^^ (b2n aa <<< 5)
    ^^^ (b2n tc <<< 6)
    ^^^ (b2n rd <<< 7)
    ^^^ (b2n ra <<< 8)
    ^^^ 0
    ^^^ ((rcode &&& BITMASKS.getD 4 0) <<< 12)

/-- `Header::pack`. -/
def Header.pack (h : Header) : PackedHeader :=
  { data := [h.id, packFlags h.qr h.opcode h.aa h.tc h.rd h.ra h.rcode,
             h.qdcount, h.ancount, h.nscount, h.arcount] }

/-- `u16::to_le_bytes`: low byte first. -/
def u16_to_le_bytes (w : Nat) : List Nat := [w % 256, w / 256]

/-- `Header::to_bytes`: each packed 16-bit word emitted via `to_le_bytes`. -/
def Header.to_bytes (h : Header) : List Nat :=
  h.pack.data.flatMap u16_to_le_bytes

/-- `u16::from_le_bytes`. -/
def u16_from_le_bytes (b0 b1 : Nat) : Nat := b0 + 256 * b1

/-- `Header::from_bytes`: reads the six words via `from_le_bytes`,
validates the opcode value `(flags & 0b1111) >> 1` against the closed
enum.  Indexing a buffer shorter than 12 bytes is a Rust panic. -/
def Header.from_bytes (buffer : List Nat) : PRes Header :=
  if buffer.length < 12 then .panic "index out of bounds"
  else
    let at_ := fun i => buffer.getD i 0
    let packed_flags := u16_from_le_bytes (at_ 2) (at_ 3)
    let opcode_int := (packed_flags &&& BITMASKS.getD 4 0) >>> 1
    match Opcode.from_u16 opcode_int with
    | none => .err ("Unsupported opcode " ++ toString opcode_int)
    | some opcode =>
      .ok {
        id := u16_from_le_bytes (at_ 0) (at_ 1)
        qdcount := u16_from_le_bytes (at_ 4) (at_ 5)
        ancount := u16_from_le_bytes (at_ 6) (at_ 7)
        nscount := u16_from_le_bytes (at_ 8) (at_ 9)
        arcount := u16_from_le_bytes (at_ 10) (at_ 11)
        qr := (packed_flags &&& (BITMASKS.getD 1 0 >>> 0)) ≠ 0
        opcode := opcode
        aa := ((packed_flags >>> 5) &&& BITMASKS.getD 1 0) ≠ 0
        tc := ((packed_flags >>> 6) &&& BITMASKS.getD 1 0) ≠ 0
        rd := ((packed_flags >>> 7) &&& BITMASKS.getD 1 0) ≠ 0
        ra := ((packed_flags >>> 8) &&& BITMASKS.getD 1 0) ≠ 0
        z := (packed_flags >>> 9) &&& BITMASKS.getD 3 0
        rcode := (packed_flags >>> 12) &&& BITMASKS.getD 4 0
      }

/-- `Header::parse`: fixed 12-byte consumption count plus `from_bytes`. -/
def Header.parse (buffer : List Nat) : PRes ParsedHeader :=
  match Header.from_bytes buffer with
  | .panic m => .panic m
  | .err m => .err m
  | .ok header => .ok { parsed_bytes := 2 * 6, header := header }

end Dns

namespace Dns

/-! ## Hostname (src/dns/hostname.rs) -/

/-- `Label` from `hostname.rs`: NORMAL holds the stored length byte and the
label text; COMPRESSED holds the full 16-bit word read off the wire
(`pointer` field). -/
inductive Label where
  | NORMAL (length : Nat) (label : List Char)
  | COMPRESSED (pointer : Nat)
deriving DecidableEq, Repr

/-- `COMPRESSED_MASK` / `COMPRESSED_INDICATOR` from `hostname.rs`. -/
def COMPRESSED_MASK : Nat := 0xc000

def COMPRESSED_INDICATOR : Nat := 0xc000

/-- `u16::to_be_bytes`: high byte first. -/
def u16_to_be_bytes (w : Nat) : List Nat := [w / 256 % 256, w % 256]

/-- `Label::to_bytes`: a NORMAL label emits its stored length byte then the
label's bytes; a COMPRESSED label emits `COMPRESSED_INDICATOR ^ pointer`
big-endian. -/
def Label.to_bytes : Label → List Nat
  | .NORMAL length label => length :: label.map Char.toNat
  | .COMPRESSED pointer => u16_to_be_bytes (COMPRESSED_INDICATOR ^^^ pointer)

/-- `Hostname` newtype from `hostname.rs`. -/
structure Hostname where
  labels : List Label
deriving DecidableEq, Repr

/-- `ParsedHostname` from `hostname.rs`. -/
structure ParsedHostname where
  parsed_bytes : Nat
  hostname : Hostname
deriving DecidableEq, Repr

/-- Rust `char::is_ascii_alphanumeric`. -/
def is_ascii_alphanumeric (c : Char) : Bool :=
  (48 ≤ c.toNat && c.toNat ≤ 57) || (65 ≤ c.toNat && c.toNat ≤ 90) ||
    (97 ≤ c.toNat && c.toNat ≤ 122)

/-- `ALLOWED_SPECIAL_CHARS.contains c` for `ALLOWED_SPECIAL_CHARS = "-."`. -/
def allowed_special (c : Char) : Bool := c = '-' || c = '.'

/-- `valid_hostname` from `hostname.rs` (RFC-1123 style check): length
below 256, first and last characters ASCII alphanumeric (with the missing
first character defaulting to `' '` and a missing last character to
`'a'`), all middle characters alphanumeric or `-` or `.`.  Strings are
`List Char`; on every string the Rust function can accept the two length
notions (bytes vs chars) agree, because non-ASCII characters fail the
character checks. -/
def valid_hostname (hostname : List Char) : Bool :=
  hostname.length < 256 &&
    is_ascii_alphanumeric ((hostname.head?).getD ' ') &&
    (match hostname with
     | [] => true
     | _ :: rest =>
       is_ascii_alphanumeric ((rest.getLast?).getD 'a') &&
         rest.dropLast.all fun c => is_ascii_alphanumeric c || allowed_special c)

/-- `Hostname::from_string`: validate, then split on `'.'` and build one
NORMAL label per piece with the stored length equal to the piece's length
(byte length = char length, as validated strings are ASCII). -/
def Hostname.from_string (hostname : List Char) : Option Hostname :=
  if valid_hostname hostname then
    some ⟨(hostname.splitOn '.').map fun label => .NORMAL label.length label⟩
  else
    none

/-- `Hostname::to_bytes`: concatenate the labels' bytes and terminate with
a zero octet. -/
def Hostname.to_bytes (h : Hostname) : List Nat :=
  (h.labels.flatMap Label.to_bytes) ++ [0]

/-- One step of UTF-8 decoding as performed by Rust `String::from_utf8`
(RFC 3629: no overlong forms, no surrogates, max U+10FFFF): decode the
character whose leading byte is `b`, returning it and the unconsumed
suffix, or `none` on an invalid sequence. -/
def utf8Step (b : Nat) (rest : List Nat) : Option (Char × List Nat) :=
  if b < 0x80 then some (Char.ofNat b, rest)
  else if b < 0xc2 then none
  else if b < 0xe0 then
    match rest with
    | c1 :: rest' =>
      if 0x80 ≤ c1 && c1 < 0xc0 then
        some (Char.ofNat ((b - 0xc0) * 64 + (c1 - 0x80)), rest')
      else none
    | [] => none
  else if b < 0xf0 then
    match rest with
    | c1 :: c2 :: rest' =>
      let lo1 := if b = 0xe0 then 0xa0 else 0x80
      let hi1 := if b = 0xed then 0xa0 else 0xc0
      if (lo1 ≤ c1 && c1 < hi1) && (0x80 ≤ c2 && c2 < 0xc0) then
        some (Char.ofNat ((b - 0xe0) * 4096 + (c1 - 0x80) * 64 + (c2 - 0x80)),
          rest')
      else none
    | _ => none
  else if b < 0xf5 then
    match rest with
    | c1 :: c2 :: c3 :: rest' =>
      let lo1 := if b = 0xf0 then 0x90 else 0x80
      let hi1 := if b = 0xf4 then 0x90 else 0xc0
      if (lo1 ≤ c1 && c1 < hi1) && (0x80 ≤ c2 && c2 < 0xc0) &&
          (0x80 ≤ c3 && c3 < 0xc0) then
        some (Char.ofNat ((b - 0xf0) * 262144 + (c1 - 0x80) * 4096 +
          (c2 - 0x80) * 64 + (c3 - 0x80)), rest')
      else none
    | _ => none
  else none

/-- UTF-8 validation/decoding loop: decode leading bytes until the list is
exhausted.  The fuel argument is a termination artifact; every step
consumes at least the leading byte, so `l.length` steps suffice. -/
def utf8DecodeGo : Nat → List Nat → Option (List Char)
  | _, [] => some []
  | 0, _ :: _ => none
  | fuel + 1, b :: rest =>
    match utf8Step b rest with
    | none => none
    | some (c, rest') => (utf8DecodeGo fuel rest').map fun cs => c :: cs

/-- UTF-8 validation/decoding as performed by Rust `String::from_utf8`. -/
def utf8Decode (l : List Nat) : Option (List Char) :=
  utf8DecodeGo l.length l

/-- Terminator handling after one NORMAL label of `Hostname::parse`'s
loop: look at the byte after the label (panic on underrun); a zero octet
ends the name (consuming it), anything else continues the loop (`recurse`
is the loop itself). -/
def parseGoCont (recurse : List Nat → Nat → List Label → PRes (Nat × List Label))
    (rem : List Nat) (i : Nat) (labels : List Label) : PRes (Nat × List Label) :=
  match rem with
  | [] => .panic "index out of bounds"
  | t :: tl =>
    if t = 0 then .ok (i + 1, labels)
    else recurse (t :: tl) i labels

/-- The loop body of `Hostname::parse`.  `rem` is the unread suffix of the
buffer (all reads in the Rust loop are at index `i` or later, so consuming
the front is equivalent to advancing `i`), `i` the running byte index,
`labels` the accumulator.  Mirrors the source: read two bytes big-endian
(panic on underrun), take the pointer branch when the top two bits are
set, otherwise read a length byte, slice that many label bytes (panic on
underrun), `String::from_utf8(..).unwrap()` them (panic if invalid), and
stop when the byte after the label is zero (panic if absent). -/
def parseGo (fuel : Nat) (rem : List Nat) (i : Nat) (labels : List Label) :
    PRes (Nat × List Label) :=
  match fuel with
  | 0 => .panic "unreachable: fuel exhausted"
  | fuel + 1 =>
    match rem with
    | [] => .panic "index out of bounds"
    | [_] => .panic "index out of bounds"
    | b0 :: b1 :: tail =>
      let next_bytes := 256 * b0 + b1
      if next_bytes &&& COMPRESSED_MASK = COMPRESSED_INDICATOR then
        .ok (i + 2, labels ++ [.COMPRESSED next_bytes])
      else
        let label_size := b0
        if label_size ≤ (b1 :: tail).length then
          match utf8Decode ((b1 :: tail).take label_size) with
          | none => .panic "called unwrap on an Err value"
          | some label =>
            parseGoCont (parseGo fuel) ((b1 :: tail).drop label_size)
              (i + 1 + label_size) (labels ++ [.NORMAL label_size label])
        else .panic "index out of bounds"

/-- `Hostname::parse`: run the loop from the start of the buffer, then
perform the `parsed_bytes as u8` check (`Err` when the byte count does not
fit in a `u8`).  The fuel argument is a termination artifact of the
embedding: every loop iteration consumes at least one buffer byte, so
`buffer.length` iterations can never be exceeded and the fuel-exhausted
branch is unreachable. -/
def Hostname.parse (buffer : List Nat) : PRes ParsedHostname :=
  match parseGo buffer.length buffer 0 [] with
  | .panic m => .panic m
  | .err m => .err m
  | .ok (i, labels) =>
    if i % 256 = i then .ok { parsed_bytes := i % 256, hostname := ⟨labels⟩ }
    else .err "Parsed more bytes than can be represented in a u8"

end Dns

namespace Dns

/-! ## Types and classes (src/dns/types.rs, src/dns/classes.rs) -/

/-- `Type` enum from `types.rs` (named `RrType` here since `Type` is a
Lean keyword): subset of RFC 1035 TYPE values. -/
inductive RrType where
  | A
  | NS
  | CNAME
  | SOA
  | TXT
deriving DecidableEq, Repr

/-- `Type as u16`. -/
def RrType.toNat : RrType → Nat
  | .A => 1
  | .NS => 2
  | .CNAME => 5
  | .SOA => 6
  | .TXT => 16

/-- `Class` enum from `classes.rs`. -/
inductive Class where
  | IN
deriving DecidableEq, Repr

/-- `Class as u16`. -/
def Class.toNat : Class → Nat
  | .IN => 1

/-! ## Question and messages (src/dns/question.rs, src/dns/message.rs) -/

/-- `Question` from `question.rs`. -/
structure Question where
  qname : Hostname
  qtype : RrType
  qclass : Class
deriving DecidableEq, Repr

/-- `QuestionMessage` from `message.rs` (header plus question section). -/
structure QuestionMessage where
  header : Header
  questions : List Question
deriving DecidableEq, Repr

/-! ## Resource records (src/dns/resource_record.rs, answer.rs,
authority.rs, additional.rs: `Answer`, `Authority` and `Additional` are
type aliases of `ResourceRecord`) -/

/-- `ResourceRecord` from `resource_record.rs`. -/
structure ResourceRecord where
  name : Hostname
  rtype : RrType
  class_ : Class
  ttl : Nat
  rdlength : Nat
  rdata : List Nat
deriving DecidableEq, Repr

/-- The `Message` struct used by `response.rs` and `kaminsky.rs` (header
plus all four sections; the question and record sections as stored on the
`Response`'s captured query). -/
structure Message where
  header : Header
  questions : List Question
  answers : List ResourceRecord
  authorities : List ResourceRecord
  additionals : List ResourceRecord
deriving DecidableEq, Repr

/-! ## Query builder (src/dns/query.rs) -/

/-- `Query` from `query.rs`. -/
structure Query where
  hostnames : List (List Char)
  qtype : RrType
  opcode : Opcode
  recursion_desired : Bool

/-- `Query::new`: defaults qtype = A, opcode = QUERY,
recursion_desired = false. -/
def Query.new (hostnames : List (List Char)) : Query :=
  { hostnames := hostnames
    qtype := .A
    opcode := .QUERY
    recursion_desired := false }

/-- The `questions` collection loop of `Query::to_message`: map
`Hostname::from_string` over the hostnames, short-circuiting on the first
failure (Rust `collect::<Result<Vec<_>, _>>`). -/
def questionsOf (qtype : RrType) : List (List Char) → Except String (List Question)
  | [] => .ok []
  | hostname :: rest =>
    match Hostname.from_string hostname with
    | none => .error "Invalid hostname"
    | some qname =>
      match questionsOf qtype rest with
      | .error e => .error e
      | .ok qs => .ok ({ qname := qname, qtype := qtype, qclass := .IN } :: qs)

/-- `Query::to_message`.  The Rust code draws `id = rand::random::<u16>()`;
the random draw is passed in as the `id` argument here. -/
def Query.to_message (q : Query) (id : Nat) : Except String QuestionMessage :=
  if q.hostnames.length > 65535 then
    .error "Too many hostnames entered, cannot query for more than 65535 hostnames"
  else
    let qdcount := q.hostnames.length % 65536
    match questionsOf q.qtype q.hostnames with
    | .error e => .error e
    | .ok questions =>
      .ok {
        header := {
          id := id
          qr := false
          opcode := q.opcode
          aa := false
          tc := false
          rd := q.recursion_desired
          ra := false
          z := 0
          rcode := 0
          qdcount := qdcount
          ancount := 0
          nscount := 0
          arcount := 0 }
        questions := questions }

/-! ## Response builder (src/dns/response.rs) -/

/-- `Response` from `response.rs`. -/
structure Response where
  query : Message
  rcode : Nat
  answers : List ResourceRecord
  authorities : List ResourceRecord
  additionals : List ResourceRecord
  authoritative_answer : Bool
  recursion_available : Bool
deriving DecidableEq, Repr

/-- `ARecord` from `response.rs`. -/
structure ARecord where
  name : List Char
  ttl : Nat
  ip : List Nat
deriving DecidableEq, Repr

/-- `NSRecord` from `response.rs`. -/
structure NSRecord where
  name : List Char
  ttl : Nat
  ns : List Char
deriving DecidableEq, Repr

/-- `Record` from `response.rs`: tagged typed-record variant. -/
inductive Record where
  | A (record : ARecord)
  | NS (record : NSRecord)
deriving DecidableEq, Repr

/-- `ARecord::to_rr`: name validated via `Hostname::from_string`, type A,
class IN, rdlength 4, rdata = the 4 IP octets. -/
def ARecord.to_rr (record : ARecord) : Except String ResourceRecord :=
  match Hostname.from_string record.name with
  | none => .error "Invalid hostname"
  | some name =>
    .ok {
      name := name
      rtype := .A
      class_ := .IN
      ttl := record.ttl
      rdlength := 4
      rdata := record.ip }

/-- `NSRecord::to_rr`: the nameserver hostname is validated and encoded as
the rdata; `rdlength` is its encoded length (`as u16`). -/
def NSRecord.to_rr (record : NSRecord) : Except String ResourceRecord :=
  match Hostname.from_string record.ns with
  | none => .error "Invalid hostname"
  | some ns =>
    let ns_bytes := ns.to_bytes
    match Hostname.from_string record.name with
    | none => .error "Invalid hostname"
    | some name =>
      .ok {
        name := name
        rtype := .NS
        class_ := .IN
        ttl := record.ttl
        rdlength := ns_bytes.length % 65536
        rdata := ns_bytes }

/-- `Record::to_rr`. -/
def Record.to_rr : Record → Except String ResourceRecord
  | .A record => record.to_rr
  | .NS record => record.to_rr

/-- `Response::new`: captures the query, `rcode = 0`, empty record
vectors, and both `authoritative_answer` and `recursion_available`
defaulted to `true`. -/
def Response.new (query : Message) : Response :=
  { query := query
    rcode := 0
    answers := []
    authorities := []
    additionals := []
    authoritative_answer := true
    recursion_available := true }

/-- `Response::add_answer`: `self.answers.push(record.to_rr()?)`. -/
def Response.add_answer (r : Response) (record : Record) :
    Except String Response :=
  match record.to_rr with
  | .error e => .error e
  | .ok rr => .ok { r with answers := r.answers ++ [rr] }

/-- `Response::add_authority`. -/
def Response.add_authority (r : Response) (record : Record) :
    Except String Response :=
  match record.to_rr with
  | .error e => .error e
  | .ok rr => .ok { r with authorities := r.authorities ++ [rr] }

/-- `Response::add_additional`. -/
def Response.add_additional (r : Response) (record : Record) :
    Except String Response :=
  match record.to_rr with
  | .error e => .error e
  | .ok rr => .ok { r with additionals := r.additionals ++ [rr] }

/-- `Response::to_message`: copy the query's header and questions, force
`qr`, mirror `aa`/`ra`/`rcode` from the builder, set the three counts from
the vector lengths (`len() as u16`), attach the three record vectors. -/
def Response.to_message (r : Response) : Except String Message :=
  .ok {
    header := { r.query.header with
      qr := true
      aa := r.authoritative_answer
      ra := r.recursion_available
      rcode := r.rcode
      ancount := r.answers.length % 65536
      nscount := r.authorities.length % 65536
      arcount := r.additionals.length % 65536 }
    questions := r.query.questions
    answers := r.answers
    authorities := r.authorities
    additionals := r.additionals }

end Dns

namespace Kaminsky

/-! ## Attack driver (src/kaminsky.rs) -/

/-- The id range `0..u16::max_value()` passed by `attack` to
`spam_message`: a half-open Rust range, so 0 through 65534. -/
def attackIdRange : List Nat := List.range 65535

/-- The send loop of `spam_message`: for each id, overwrite the first two
payload bytes with `id.to_be_bytes()` (the buffer mutation persists across
iterations) and hand the datagram to `Spoofer::send_bytes`.  The returned
list is the transmitted datagrams in send order; writing into a buffer of
fewer than two bytes is a Rust panic.  Wall-clock duration is abstracted
away: this models a run in which the deadline does not expire mid-burst
(the `start.elapsed() > duration` early `break`, which would cut the list
to a prefix, never fires). -/
def spam_message (bytes : List Nat) : List Nat → PRes (List (List Nat))
  | [] => .ok []
  | id :: rest =>
    match bytes with
    | _ :: _ :: tail =>
      let sent := id / 256 :: id % 256 :: tail
      match spam_message sent rest with
      | .panic m => .panic m
      | .err m => .err m
      | .ok sends => .ok (sent :: sends)
    | _ => .panic "index out of bounds"

/-- Transaction id carried by a forged datagram: big-endian 16-bit value
in its first two bytes. -/
def datagramId (bytes : List Nat) : Nat :=
  256 * bytes.getD 0 0 + bytes.getD 1 0

/-- The transaction ids of one `(spoofed_src_ip, subdomain)` burst of the
attack loop, in transmission order: `spam_message` applied to the forged
response bytes and `0..u16::max_value()`, with each transmitted datagram
mapped to the id it carries. -/
def burstIds (bytes : List Nat) : PRes (List Nat) :=
  PRes.map (fun sends => sends.map datagramId) (spam_message bytes attackIdRange)

end Kaminsky

namespace Dns

/-! ## Claim theorems -/

/-- **C1.**  The claim states `Header::to_bytes` serializes the six 16-bit
words big-endian and maps the scenario-A header to
`db 42 01 03 00 01 00 02 00 03 00 04`.  The code instead emits each word
with `to_le_bytes` (and packs the flag bits mirrored, QR at the least
significant bit), so the scenario-A header serializes to
`42 db 80 30 01 00 02 00 03 00 04 00` — exactly what the repository's own
`simple_header_to_bytes` test asserts.  This theorem evaluates the code at
the claim's input. -/
theorem C1_header_to_bytes_little_endian :
    (Header.to_bytes
      { id := 0xdb42, qr := false, opcode := .QUERY, aa := false, tc := false,
        rd := true, ra := false, z := 0, rcode := 3, qdcount := 1,
        ancount := 2, nscount := 3, arcount := 4 }
      = [0x42, 0xdb, 0x80, 0x30, 1, 0, 2, 0, 3, 0, 4, 0]) ∧
    Header.to_bytes
      { id := 0xdb42, qr := false, opcode := .QUERY, aa := false, tc := false,
        rd := true, ra := false, z := 0, rcode := 3, qdcount := 1,
        ancount := 2, nscount := 3, arcount := 4 }
      ≠ [0xdb, 0x42, 0x01, 0x03, 0x00, 0x01, 0x00, 0x02, 0x00, 0x03, 0x00, 0x04] := by
  decide

/-- **C7 (counterexample).**  The claim says parsing `c0 0c` yields a
COMPRESSED label whose pointer is `0x000c` (the low 14 bits).  It does
not: the code stores the whole 16-bit word. -/
theorem C7_counterexample :
    Hostname.parse [0xc0, 0x0c] ≠
      .ok { parsed_bytes := 2, hostname := ⟨[.COMPRESSED 0x000c]⟩ } := by
  decide

/-- **C7 (amended).**  `Hostname::parse` on `c0 0c` succeeds, consumes 2
bytes and returns a single COMPRESSED label — but the stored pointer is
the full 16-bit word `0xc00c` (indicator bits included), exactly as the
repository's `parse_compressed_hostname` test asserts. -/
theorem C7_parse_compressed :
    Hostname.parse [0xc0, 0x0c] =
      .ok { parsed_bytes := 2, hostname := ⟨[.COMPRESSED 0xc00c]⟩ } := by
  decide

/-- **C8.**  The claim says every 12-byte buffer whose 4-bit opcode field
decodes outside {QUERY=0, IQUERY=1, STATUS=2} is rejected.  `Header::pack`
places the opcode at bits 1–4 of the flags word, but `Header::from_bytes`
computes `(flags & 0b1111) >> 1` — masking before shifting — so it reads
only bits 1–3 and drops the opcode's top bit.  For the buffer below the
flags word is 0xd2 = 0b11010010: its 4-bit opcode field holds 9 under the
packer's own layout (and 10 under the RFC 1035 big-endian layout), both
unknown, yet parsing succeeds and silently reports IQUERY. -/
theorem C8_unknown_opcode_not_rejected :
    (Header.parse [0, 0, 0xd2, 0, 0, 0, 0, 0, 0, 0, 0, 0] =
      .ok { parsed_bytes := 12,
            header := { id := 0, qr := false, opcode := .IQUERY, aa := false,
                        tc := true, rd := true, ra := false, z := 0, rcode := 0,
                        qdcount := 0, ancount := 0, nscount := 0, arcount := 0 } }) ∧
    ((u16_from_le_bytes 0xd2 0 >>> 1) &&& BITMASKS.getD 4 0 = 9) ∧
    Opcode.from_u16 9 = none ∧ Opcode.from_u16 10 = none := by
  decide

/-- **C9.**  The claim says `Hostname::parse` returns an error result
(rather than succeeding or crashing) on buffer underrun, on length bytes
64–191, and on non-UTF-8 label bytes.  The code does none of that: an
underrun panics (out-of-bounds index), non-UTF-8 label bytes panic
(`String::from_utf8(..).unwrap()`), and a length byte of 65 parses
successfully as a NORMAL label.  The source's own TODO comments
acknowledge the panics. -/
theorem C9_parse_panics_or_accepts :
    (Hostname.parse [3, 97] = .panic "index out of bounds") ∧
    (Hostname.parse [2, 0xff, 0xfe, 0] = .panic "called unwrap on an Err value") ∧
    (Hostname.parse (65 :: List.replicate 65 97 ++ [0]) =
      .ok { parsed_bytes := 67,
            hostname := ⟨[.NORMAL 65 (List.replicate 65 'a')]⟩ }) := by
  decide

/-- **C4.**  For every query message `q`, `Response::new(q).to_message()`
succeeds and yields a message with `qr = aa = ra = true`, `rcode = 0`, the
query's id, the query's questions, and all three record counts zero. -/
theorem C4_response_mirrors_query (q : Message) :
    ∃ m, (Response.new q).to_message = .ok m ∧
      m.header.qr = true ∧ m.header.aa = true ∧ m.header.ra = true ∧
      m.header.rcode = 0 ∧ m.header.id = q.header.id ∧
      m.questions = q.questions ∧ m.header.ancount = 0 ∧
      m.header.nscount = 0 ∧ m.header.arcount = 0 := by
  exact ⟨_, rfl, rfl, rfl, rfl, rfl, rfl, rfl, rfl, rfl, rfl⟩

/-- **C10.**  `Response::add_answer` / `add_authority` / `add_additional`
are atomic and frame-preserving: when `Record::to_rr` fails the error is
propagated and (the methods taking `&mut self` and returning before any
push) the `Response` is unchanged; when it succeeds exactly the converted
record is appended at the end of the corresponding vector and every other
field is untouched. -/
theorem C10_add_record_atomic (r : Response) (record : Record) :
    (∀ e, record.to_rr = .error e →
      r.add_answer record = .error e ∧
      r.add_authority record = .error e ∧
      r.add_additional record = .error e) ∧
    (∀ rr, record.to_rr = .ok rr →
      r.add_answer record = .ok { r with answers := r.answers ++ [rr] } ∧
      r.add_authority record = .ok { r with authorities := r.authorities ++ [rr] } ∧
      r.add_additional record = .ok { r with additionals := r.additionals ++ [rr] }) := by
  constructor <;> intro x hx <;>
    simp [Response.add_answer, Response.add_authority, Response.add_additional, hx]

/-- A concrete typed record, response and converted resource record used
to witness `C10_add_record_atomic`. -/
def recA : Record := .A { name := ['a'], ttl := 5, ip := [127, 0, 0, 1] }

def rrA : ResourceRecord :=
  { name := ⟨[.NORMAL 1 ['a']]⟩, rtype := .A, class_ := .IN, ttl := 5,
    rdlength := 4, rdata := [127, 0, 0, 1] }

def emptyMessage : Message :=
  { header := { id := 0, qr := false, opcode := .QUERY, aa := false,
                tc := false, rd := false, ra := false, z := 0, rcode := 0,
                qdcount := 0, ancount := 0, nscount := 0, arcount := 0 },
    questions := [], answers := [], authorities := [], additionals := [] }

/-- Witness for C10: at a concrete record and response the success branch
fires and appends exactly the converted record. -/
theorem C10_witness :
    Record.to_rr recA = .ok rrA ∧
    (Response.new emptyMessage).add_answer recA =
      .ok { Response.new emptyMessage with answers := [rrA] } := by
  refine ⟨rfl, ?_⟩
  have h := (C10_add_record_atomic (Response.new emptyMessage) recA).2 rrA rfl
  exact h.1

end Dns

namespace Dns

/-- **C5 (counterexample).**  The claim says `Query::new` defaults the
recursion-desired flag to true.  `Query::new` sets
`recursion_desired: false` (asserted by the repository's own
`query_to_message` test), so the materialized header carries `rd = false`,
not `rd = true` as claimed. -/
theorem C5_counterexample :
    (Query.new [['a']]).to_message 7 =
      .ok { header := { id := 7, qr := false, opcode := .QUERY, aa := false,
                        tc := false, rd := false, ra := false, z := 0,
                        rcode := 0, qdcount := 1, ancount := 0, nscount := 0,
                        arcount := 0 },
            questions := [{ qname := ⟨[.NORMAL 1 ['a']]⟩, qtype := .A,
                            qclass := .IN }] } ∧
    (Query.new [['a']]).recursion_desired = false := by
  exact ⟨rfl, rfl⟩

/-- `questionsOf` succeeds on a list of valid hostnames and produces one
A/IN question per hostname, in order. -/
theorem questionsOf_ok (t : RrType) (hostnames : List (List Char))
    (hvalid : ∀ s ∈ hostnames, valid_hostname s = true) :
    ∃ qs, questionsOf t hostnames = .ok qs ∧
      List.Forall₂ (fun s q => Hostname.from_string s = some q.qname ∧
        q.qtype = t ∧ q.qclass = .IN) hostnames qs := by
  induction hostnames with
  | nil => exact ⟨[], rfl, List.Forall₂.nil⟩
  | cons s rest ih =>
    obtain ⟨qs, hqs, hrel⟩ := ih fun x hx => hvalid x (List.mem_cons_of_mem _ hx)
    have hs : valid_hostname s = true := hvalid s (List.mem_cons_self _ _)
    refine ⟨{ qname := ⟨(s.splitOn '.').map fun label =>
        .NORMAL label.length label⟩, qtype := t, qclass := .IN } :: qs, ?_, ?_⟩
    · simp only [questionsOf, Hostname.from_string, hs, if_pos, hqs]
    · exact List.Forall₂.cons ⟨by simp [Hostname.from_string, hs], rfl, rfl⟩ hrel

/-- **C5 (amended).**  For every list of at most 65 535 valid hostname
strings, `Query::new(..).to_message()` succeeds and yields a message whose
header has `qr = aa = tc = ra = false`, `z = 0`, `rcode = 0`,
`opcode = QUERY`, `qdcount` = the number of hostnames, and one A/IN
question per hostname — but `rd = false`, because `Query::new` defaults
recursion-desired to false (the claim said true).  The Rust `id` random
draw is the explicit `id` argument. -/
theorem C5_query_to_message (hostnames : List (List Char)) (id : Nat)
    (hlen : hostnames.length ≤ 65535)
    (hvalid : ∀ s ∈ hostnames, valid_hostname s = true) :
    ∃ m, (Query.new hostnames).to_message id = .ok m ∧
      m.header.qr = false ∧ m.header.aa = false ∧ m.header.tc = false ∧
      m.header.ra = false ∧ m.header.z = 0 ∧ m.header.rcode = 0 ∧
      m.header.rd = false ∧ m.header.opcode = .QUERY ∧ m.header.id = id ∧
      m.header.qdcount = hostnames.length ∧
      List.Forall₂ (fun s q => Hostname.from_string s = some q.qname ∧
        q.qtype = .A ∧ q.qclass = .IN) hostnames m.questions := by
  obtain ⟨qs, hqs, hrel⟩ := questionsOf_ok .A hostnames hvalid
  have hnot : ¬ hostnames.length > 65535 := by omega
  refine ⟨⟨⟨id, false, .QUERY, false, false, false, false, 0, 0,
      hostnames.length % 65536, 0, 0, 0⟩, qs⟩,
      ?_, rfl, rfl, rfl, rfl, rfl, rfl, rfl, rfl, rfl, ?_, hrel⟩
  · simp only [Query.to_message, Query.new, if_neg hnot, hqs]
  · show hostnames.length % 65536 = hostnames.length
    omega

/-- Witness for `C5_query_to_message` at a concrete one-hostname list. -/
theorem C5_witness :
    ∃ m, (Query.new [['a'], ['b', '-', 'c']]).to_message 3 = .ok m ∧
      m.header.qr = false ∧ m.header.aa = false ∧ m.header.tc = false ∧
      m.header.ra = false ∧ m.header.z = 0 ∧ m.header.rcode = 0 ∧
      m.header.rd = false ∧ m.header.opcode = .QUERY ∧ m.header.id = 3 ∧
      m.header.qdcount = 2 ∧
      List.Forall₂ (fun s q => Hostname.from_string s = some q.qname ∧
        q.qtype = .A ∧ q.qclass = .IN) [['a'], ['b', '-', 'c']] m.questions :=
  C5_query_to_message [['a'], ['b', '-', 'c']] 3 (by decide) (by decide)

end Dns

namespace Kaminsky

/-- Running the spam loop over any id list with a payload of at least two
bytes sends one datagram per id: the payload with the first two bytes
overwritten by the id, big-endian. -/
theorem spam_message_sends (tail : List Nat) (ids : List Nat) (b0 b1 : Nat) :
    spam_message (b0 :: b1 :: tail) ids =
      .ok (ids.map fun id => id / 256 :: id % 256 :: tail) := by
  induction ids generalizing b0 b1 with
  | nil => rfl
  | cons id rest ih => simp only [spam_message, ih, List.map_cons]

/-- Ids are recovered from the first two (big-endian) bytes of the forged
datagram. -/
theorem datagramId_encode (id : Nat) (tail : List Nat) :
    datagramId (id / 256 :: id % 256 :: tail) = id := by
  simp only [datagramId, List.getD_cons_zero, List.getD_cons_succ]
  omega

/-- Any burst over a payload with at least two bytes transmits exactly the
ids of `attackIdRange`, in order. -/
theorem burstIds_cons (b0 b1 : Nat) (tail : List Nat) :
    burstIds (b0 :: b1 :: tail) = .ok attackIdRange := by
  have hmap : (attackIdRange.map fun id => id / 256 :: id % 256 :: tail).map datagramId
      = attackIdRange := by
    rw [List.map_map]
    have hpt : attackIdRange.map (datagramId ∘ fun id => id / 256 :: id % 256 :: tail)
        = attackIdRange.map fun id => id := by
      refine List.map_congr_left fun id hid => ?_
      exact datagramId_encode id tail
    rw [hpt, List.map_id']
  unfold burstIds
  rw [spam_message_sends, PRes.map_ok, hmap]

/-- **C6 (counterexample).**  The claim says a full burst covers ids 0
through 65 535 inclusive.  The attack loop passes the half-open Rust range
`0..u16::max_value()` to `spam_message`, so id 65 535 is never sent: the
burst over a concrete 12-byte payload transmits exactly the ids
0, …, 65 534 and omits 65 535. -/
theorem C6_counterexample :
    burstIds (List.replicate 12 0) = .ok attackIdRange ∧
    65535 ∉ attackIdRange := by
  constructor
  · show burstIds (0 :: 0 :: List.replicate 10 0) = _
    exact burstIds_cons 0 0 (List.replicate 10 0)
  · simp only [attackIdRange, List.mem_range]
    omega

/-- **C6 (amended).**  Within one `(spoofed_src_ip, subdomain)` burst that
the duration does not cut short, the forged responses carry transaction
ids in strictly increasing order starting from 0, and the ids sent are
exactly 0 through 65 534 (the loop iterates the half-open range
`0..u16::max_value()`, so 65 535 itself is never sent). -/
theorem C6_burst_ids (bytes : List Nat) (h : 2 ≤ bytes.length) :
    ∃ ids, burstIds bytes = .ok ids ∧
      ids = List.range 65535 ∧
      List.Pairwise (· < ·) ids ∧
      ids.head? = some 0 ∧
      (∀ k, k < 65535 → k ∈ ids) ∧
      65535 ∉ ids := by
  obtain ⟨b0, b1, tail, rfl⟩ : ∃ b0 b1 tail, bytes = b0 :: b1 :: tail := by
    match bytes, h with
    | b0 :: b1 :: tail, _ => exact ⟨b0, b1, tail, rfl⟩
  refine ⟨attackIdRange, burstIds_cons b0 b1 tail, rfl,
    List.pairwise_lt_range 65535, ?_, ?_, ?_⟩
  · simp [attackIdRange, List.head?_range]
  · intro k hk
    simpa [attackIdRange, List.mem_range] using hk
  · simp only [attackIdRange, List.mem_range]
    omega

/-- Witness for `C6_burst_ids` at a concrete 12-byte forged payload. -/
theorem C6_witness :
    ∃ ids, burstIds (List.replicate 12 7) = .ok ids ∧
      ids = List.range 65535 ∧
      List.Pairwise (· < ·) ids ∧
      ids.head? = some 0 ∧
      (∀ k, k < 65535 → k ∈ ids) ∧
      65535 ∉ ids :=
  C6_burst_ids (List.replicate 12 7) (by decide)

end Kaminsky

namespace Dns

/-- Masking with `BITMASKS[4] = 0b1111` keeps values below 16. -/
theorem and15_lt (n : Nat) : n &&& 15 < 16 :=
  lt_of_le_of_lt Nat.and_le_right (by norm_num)

/-- Masking with `0b1111` is the identity below 16. -/
theorem and15_of_lt {n : Nat} (h : n < 16) : n &&& 15 = n := by
  have h4 := @Nat.and_pow_two_sub_one_eq_mod n 4
  norm_num at h4
  omega

/-- `Header::pack` already masks the rcode, so packing a pre-masked rcode
gives the same flags word. -/
theorem packFlags_mask (qr : Bool) (op : Opcode) (aa tc rd ra : Bool) (rc : Nat) :
    packFlags qr op aa tc rd ra (rc &&& 15) = packFlags qr op aa tc rd ra rc := by
  show (0 ^^^ b2n qr
    ^^^ ((op.toNat &&& BITMASKS.getD 4 0) <<< 1)
    ^^^ (b2n aa <<< 5) ^^^ (b2n tc <<< 6) ^^^ (b2n rd <<< 7) ^^^ (b2n ra <<< 8)
    ^^^ 0 ^^^ (((rc &&& 15) &&& BITMASKS.getD 4 0) <<< 12)) = _
  have h15 : BITMASKS.getD 4 0 = 15 := rfl
  rw [h15, Nat.and_assoc]
  rfl

/-- Round-trip of the flags word, field by field: packing bounded fields
and extracting them with the expressions of `Header::from_bytes` recovers
every field (and the z bits read back as zero).  Proved by enumerating the
1536 possible flag-field combinations. -/
theorem packFlags_unpack (op : Opcode) : ∀ (qr aa tc rd ra : Bool) (rc : Fin 16),
    packFlags qr op aa tc rd ra rc.val < 65536 ∧
    Opcode.from_u16 ((packFlags qr op aa tc rd ra rc.val &&& BITMASKS.getD 4 0) >>> 1)
      = some op ∧
    decide (packFlags qr op aa tc rd ra rc.val &&& (BITMASKS.getD 1 0 >>> 0) ≠ 0) = qr ∧
    decide ((packFlags qr op aa tc rd ra rc.val >>> 5) &&& BITMASKS.getD 1 0 ≠ 0) = aa ∧
    decide ((packFlags qr op aa tc rd ra rc.val >>> 6) &&& BITMASKS.getD 1 0 ≠ 0) = tc ∧
    decide ((packFlags qr op aa tc rd ra rc.val >>> 7) &&& BITMASKS.getD 1 0 ≠ 0) = rd ∧
    decide ((packFlags qr op aa tc rd ra rc.val >>> 8) &&& BITMASKS.getD 1 0 ≠ 0) = ra ∧
    (packFlags qr op aa tc rd ra rc.val >>> 9) &&& BITMASKS.getD 3 0 = 0 ∧
    (packFlags qr op aa tc rd ra rc.val >>> 12) &&& BITMASKS.getD 4 0 = rc.val := by
  cases op <;> decide

end Dns

namespace Dns

/-- Reassembling little-endian bytes undoes splitting. -/
theorem u16_round (n : Nat) : u16_from_le_bytes (n % 256) (n / 256) = n := by
  simp only [u16_from_le_bytes]
  omega

/-- Parsing bytes emitted by `Header::to_bytes` recovers the header up to
the normalization the packer applies: the z bits (never emitted) read back
as zero and the rcode is truncated to its low four bits. -/
theorem from_bytes_to_bytes (h : Header) (hWf : h.Wf) :
    Header.from_bytes h.to_bytes =
      .ok { h with z := 0, rcode := h.rcode &&& 15 } := by
  obtain ⟨id, qr, op, aa, tc, rd, ra, z, rc, qd, an, ns, ar⟩ := h
  obtain ⟨hid, hz, hrc, hqd, han, hns, har⟩ := hWf
  have hbytes : Header.to_bytes ⟨id, qr, op, aa, tc, rd, ra, z, rc, qd, an, ns, ar⟩ =
      [id % 256, id / 256,
       packFlags qr op aa tc rd ra rc % 256, packFlags qr op aa tc rd ra rc / 256,
       qd % 256, qd / 256, an % 256, an / 256,
       ns % 256, ns / 256, ar % 256, ar / 256] := rfl
  rw [hbytes]
  rw [← packFlags_mask qr op aa tc rd ra rc]
  obtain ⟨hlt, hop, hqr, haa, htc, hrd, hra, hz0, hrc15⟩ :=
    packFlags_unpack op qr aa tc rd ra ⟨rc &&& 15, and15_lt rc⟩
  dsimp only at hlt hop hqr haa htc hrd hra hz0 hrc15
  simp only [Header.from_bytes, List.length_cons, List.getD_cons_zero,
    List.getD_cons_succ, u16_round, List.length_nil]
  norm_num at hop hqr haa htc hrd hra hz0 hrc15 ⊢
  rw [hop]
  simp only [hqr, haa, htc, hrd, hra, hz0, hrc15, Bool.not_not]

/-- A header value with `z = 0` whose `rcode` exceeds the 4-bit field. -/
def hdrRcode16 : Header :=
  { id := 0, qr := false, opcode := .QUERY, aa := false, tc := false,
    rd := false, ra := false, z := 0, rcode := 16, qdcount := 0,
    ancount := 0, nscount := 0, arcount := 0 }

/-- **C3 (counterexample).**  The claim quantifies over every header with
`z = 0` (the `rcode` field of the Rust struct is a `u8`), but `Header::pack`
truncates the rcode to four bits, so a header with `rcode = 16` does not
round-trip: it parses back with `rcode = 0`. -/
theorem C3_counterexample :
    Header.parse hdrRcode16.to_bytes ≠
      .ok { parsed_bytes := 12, header := hdrRcode16 } := by
  decide

/-- **C3 (amended).**  For every well-formed header `h` with `z = 0` whose
`rcode` fits the 4-bit wire field (`rcode < 16`), parsing the emitted 12
bytes returns exactly `h` with a consumed count of 12; and for every
well-formed header (no restrictions), parsing its emission succeeds and
re-emitting the parsed header reproduces the same 12 bytes — i.e. every
valid header buffer (a buffer the codec itself can emit) is a fixed point
of parse-then-emit. -/
theorem C3_header_roundtrip (h : Header) (hWf : h.Wf) :
    (h.z = 0 → h.rcode < 16 →
      Header.parse h.to_bytes = .ok { parsed_bytes := 12, header := h }) ∧
    ∃ ph, Header.parse h.to_bytes = .ok ph ∧
      ph.header.to_bytes = h.to_bytes := by
  have hfb := from_bytes_to_bytes h hWf
  constructor
  · intro hz hrc
    have heq : ({ h with z := 0, rcode := h.rcode &&& 15 } : Header) = h := by
      obtain ⟨id, qr, op, aa, tc, rd, ra, z, rc, qd, an, ns, ar⟩ := h
      simp only at hz hrc
      simp [hz, and15_of_lt hrc]
    unfold Header.parse
    rw [hfb, heq]
  · refine ⟨⟨12, { h with z := 0, rcode := h.rcode &&& 15 }⟩, ?_, ?_⟩
    · unfold Header.parse
      rw [hfb]
    · obtain ⟨id, qr, op, aa, tc, rd, ra, z, rc, qd, an, ns, ar⟩ := h
      simp [Header.to_bytes, Header.pack, packFlags_mask]

/-- The header of the repository's round-trip test (z = 0, rcode = 3). -/
def hdrRoundtrip : Header :=
  { id := 0xdb42, qr := false, opcode := .QUERY, aa := false, tc := false,
    rd := true, ra := false, z := 0, rcode := 3, qdcount := 1, ancount := 2,
    nscount := 3, arcount := 4 }

/-- Witness for `C3_header_roundtrip` at the repository's own test header. -/
theorem C3_witness :
    Header.parse hdrRoundtrip.to_bytes =
      .ok { parsed_bytes := 12, header := hdrRoundtrip } ∧
    ∃ ph, Header.parse hdrRoundtrip.to_bytes = .ok ph ∧
      ph.header.to_bytes = hdrRoundtrip.to_bytes :=
  ⟨(C3_header_roundtrip hdrRoundtrip (by decide)).1 rfl (by decide),
   (C3_header_roundtrip hdrRoundtrip (by decide)).2⟩

end Dns

namespace Dns

/-- ASCII alphanumeric characters are 7-bit. -/
theorem ascii_alnum_lt (c : Char) (h : is_ascii_alphanumeric c = true) :
    c.toNat < 128 := by
  simp only [is_ascii_alphanumeric, Bool.or_eq_true, Bool.and_eq_true,
    decide_eq_true_eq] at h
  omega

/-- Characters accepted anywhere by `valid_hostname` are 7-bit. -/
theorem allowed_lt (c : Char)
    (h : (is_ascii_alphanumeric c || allowed_special c) = true) :
    c.toNat < 128 := by
  rcases Bool.or_eq_true_iff.mp h with h1 | h2
  · exact ascii_alnum_lt c h1
  · rcases Bool.or_eq_true_iff.mp h2 with h3 | h3 <;>
      simp only [decide_eq_true_eq] at h3 <;> subst h3 <;> decide

/-- Every character of a string accepted by `valid_hostname` is 7-bit. -/
theorem valid_hostname_chars (s : List Char) (hv : valid_hostname s = true) :
    ∀ c ∈ s, c.toNat < 128 := by
  cases s with
  | nil => intro c hc; simp at hc
  | cons c0 rest =>
    simp only [valid_hostname, List.head?_cons, Option.getD_some,
      Bool.and_eq_true] at hv
    obtain ⟨⟨_, hfirst⟩, hlast, hmid⟩ := hv
    intro c hc
    rcases List.mem_cons.mp hc with rfl | hcr
    · exact ascii_alnum_lt c hfirst
    · rcases List.eq_nil_or_concat rest with rfl | ⟨pre, last, rfl⟩
      · simp at hcr
      · simp only [List.concat_eq_append] at hlast hmid hcr
        rw [List.dropLast_concat] at hmid
        rcases (List.mem_append.mp hcr) with hpre | hl
        · exact allowed_lt c (List.all_eq_true.mp hmid c hpre)
        · have : c = last := by simpa using hl
          subst this
          rw [List.getLast?_concat] at hlast
          exact ascii_alnum_lt c (by simpa using hlast)

end Dns

namespace Dns

/-- `utf8Step` on a 7-bit leading byte consumes exactly that byte. -/
theorem utf8Step_ascii (b : Nat) (rest : List Nat) (h : b < 128) :
    utf8Step b rest = some (Char.ofNat b, rest) := by
  unfold utf8Step
  rw [if_pos h]

/-- The decode loop is the identity on encoded 7-bit text (given enough
fuel). -/
theorem utf8DecodeGo_ascii (l : List Char) : ∀ fuel, l.length ≤ fuel →
    (∀ c ∈ l, c.toNat < 128) →
    utf8DecodeGo fuel (l.map Char.toNat) = some l := by
  induction l with
  | nil => intro fuel _ _; cases fuel <;> rfl
  | cons c rest ih =>
    intro fuel hfuel h
    obtain ⟨f, rfl⟩ : ∃ f, fuel = f + 1 := by
      cases fuel
      · simp at hfuel
      · exact ⟨_, rfl⟩
    have hc : c.toNat < 128 := h c (List.mem_cons_self c rest)
    have hrest := ih f (by simp at hfuel; omega)
      fun x hx => h x (List.mem_cons_of_mem _ hx)
    show utf8DecodeGo (f + 1) (c.toNat :: rest.map Char.toNat) = some (c :: rest)
    rw [utf8DecodeGo, utf8Step_ascii c.toNat _ hc]
    simp only [hrest, Char.ofNat_toNat]
    rfl

/-- `String::from_utf8` is the identity on encoded 7-bit text. -/
theorem utf8Decode_ascii (l : List Char) (h : ∀ c ∈ l, c.toNat < 128) :
    utf8Decode (l.map Char.toNat) = some l := by
  unfold utf8Decode
  exact utf8DecodeGo_ascii l _ (by simp) h

/-- Membership in a piece of `splitOn` implies membership in the original
string (via `intercalate_splitOn`). -/
theorem mem_of_mem_splitOn {c : Char} {l s : List Char}
    (hl : l ∈ s.splitOn '.') (hc : c ∈ l) : c ∈ s := by
  have hs : List.intercalate ['.'] (s.splitOn '.') = s :=
    List.intercalate_splitOn s '.'
  rw [← hs]
  rw [List.intercalate]
  refine List.mem_flatten.mpr ⟨l, ?_, hc⟩
  -- l ∈ intersperse sep pieces
  generalize s.splitOn '.' = pieces at hl ⊢
  induction pieces with
  | nil => simp at hl
  | cons a tl ih =>
    cases tl with
    | nil => simpa using hl
    | cons b tl' =>
      rcases List.mem_cons.mp hl with rfl | hmem
      · simp [List.intersperse]
      · simp only [List.intersperse, List.mem_cons]
        right; right
        have := ih hmem
        simpa [List.intersperse] using this

end Dns

namespace Dns

/-- Wire encoding of one `from_string` label: length byte then the ASCII
bytes (the `Label::to_bytes` of `NORMAL l.length l`). -/
def encLabel (l : List Char) : List Nat := l.length :: l.map Char.toNat

/-- `Hostname::to_bytes` of a `from_string` result: concatenated label
encodings plus the terminating zero octet. -/
theorem to_bytes_labels (ls : List (List Char)) :
    (Hostname.mk (ls.map fun l => .NORMAL l.length l)).to_bytes =
      ls.flatMap encLabel ++ [0] := by
  simp only [Hostname.to_bytes, List.flatMap_map, encLabel]
  rfl

/-- Main loop lemma: on the encoding of nonempty labels (each nonempty,
at most 191 characters — so the length byte cannot look like a
compression pointer — and 7-bit), the parse loop consumes the whole
buffer including the terminator and reproduces the labels. -/
theorem parseGo_encode (ls : List (List Char)) :
    ∀ (fuel i : Nat) (acc : List Label),
      ls ≠ [] →
      (∀ l ∈ ls, l ≠ [] ∧ l.length ≤ 191 ∧ ∀ c ∈ l, c.toNat < 128) →
      ls.length ≤ fuel →
      parseGo fuel (ls.flatMap encLabel ++ [0]) i acc =
        .ok (i + (ls.flatMap encLabel).length + 1,
             acc ++ ls.map fun l => .NORMAL l.length l) := by
  induction ls with
  | nil => intro _ _ _ hne _ _; exact absurd rfl hne
  | cons l ls' ih =>
    intro fuel i acc _ hcond hfuel
    obtain ⟨hlne, hl191, hlchars⟩ := hcond l (List.mem_cons_self _ _)
    obtain ⟨f, rfl⟩ : ∃ f, fuel = f + 1 := by
      cases fuel
      · simp at hfuel
      · exact ⟨_, rfl⟩
    obtain ⟨c, l0, rfl⟩ : ∃ c l0, l = c :: l0 := by
      cases l
      · exact absurd rfl hlne
      · exact ⟨_, _, rfl⟩
    have hbuf : ((c :: l0) :: ls').flatMap encLabel ++ [0]
        = (c :: l0).length :: c.toNat ::
            (l0.map Char.toNat ++ (ls'.flatMap encLabel ++ [0])) := by
      simp [encLabel]
    rw [hbuf, parseGo]
    have hc128 : c.toNat < 128 := hlchars c (List.mem_cons_self _ _)
    have hnc : ¬ (256 * (c :: l0).length + c.toNat &&&
        COMPRESSED_MASK = COMPRESSED_INDICATOR) := by
      have hle : (256 * (c :: l0).length + c.toNat) &&& COMPRESSED_MASK ≤
          256 * (c :: l0).length + c.toNat := Nat.and_le_left
      have hg : (c :: l0).length = l0.length + 1 := by simp
      have hl191' : l0.length + 1 ≤ 191 := by
        simpa using hl191
      unfold COMPRESSED_MASK COMPRESSED_INDICATOR at *
      omega
    rw [if_neg hnc]
    have hguard : (c :: l0).length ≤
        (c.toNat :: (l0.map Char.toNat ++ (ls'.flatMap encLabel ++ [0]))).length := by
      simp
    rw [if_pos hguard]
    have htake : (c.toNat :: (l0.map Char.toNat ++ (ls'.flatMap encLabel ++ [0]))).take
        (c :: l0).length = (c :: l0).map Char.toNat := by
      show (((c :: l0).map Char.toNat) ++ (ls'.flatMap encLabel ++ [0])).take
          (c :: l0).length = (c :: l0).map Char.toNat
      conv_lhs => rw [show (c :: l0).length = ((c :: l0).map Char.toNat).length from
        (List.length_map _ _).symm]
      exact List.take_left _ _
    have hdrop : (c.toNat :: (l0.map Char.toNat ++ (ls'.flatMap encLabel ++ [0]))).drop
        (c :: l0).length = ls'.flatMap encLabel ++ [0] := by
      show (((c :: l0).map Char.toNat) ++ (ls'.flatMap encLabel ++ [0])).drop
          (c :: l0).length = _
      conv_lhs => rw [show (c :: l0).length = ((c :: l0).map Char.toNat).length from
        (List.length_map _ _).symm]
      exact List.drop_left _ _
    rw [htake, utf8Decode_ascii _ hlchars, hdrop]
    cases ls' with
    | nil =>
      show parseGoCont (parseGo f) [0] (i + 1 + (c :: l0).length)
        (acc ++ [Label.NORMAL (c :: l0).length (c :: l0)]) = _
      rw [parseGoCont]
      rw [if_pos rfl]
      refine congrArg PRes.ok (Prod.ext ?_ ?_)
      · simp [encLabel]
        omega
      · simp
    | cons l2 ls'' =>
      have hl2ne : l2 ≠ [] := (hcond l2 (by simp)).1
      obtain ⟨c2, l20, rfl⟩ : ∃ c2 l20, l2 = c2 :: l20 := by
        cases l2
        · exact absurd rfl hl2ne
        · exact ⟨_, _, rfl⟩
      have hshape : ((c2 :: l20) :: ls'').flatMap encLabel ++ [0]
          = (c2 :: l20).length ::
              (c2.toNat :: (l20.map Char.toNat ++ (ls''.flatMap encLabel ++ [0]))) := by
        simp [encLabel]
      rw [hshape]
      simp only [parseGoCont]
      have hne0 : ¬ ((c2 :: l20).length = 0) := by simp
      rw [if_neg hne0, ← hshape]
      rw [ih f (i + 1 + (c :: l0).length)
        (acc ++ [Label.NORMAL (c :: l0).length (c :: l0)])
        (by simp) (fun x hx => hcond x (List.mem_cons_of_mem _ hx))
        (by simp at hfuel ⊢; omega)]
      refine congrArg PRes.ok (Prod.ext ?_ ?_)
      · simp [encLabel]
        omega
      · simp

end Dns

namespace Dns

/-- The text of a label, as used when joining a hostname's labels with
`'.'` (a COMPRESSED label carries no text). -/
def labelChars : Label → List Char
  | .NORMAL _ l => l
  | .COMPRESSED _ => []

/-- The claim's "labels, joined by `.`". -/
def joinDot (labels : List Label) : List Char :=
  List.intercalate ['.'] (labels.map labelChars)

/-- Encoding is one byte longer than the dot-joined text: each label
costs its length plus a length byte, each dot costs one byte, and there
is one more length byte than dots. -/
theorem flatMap_encLabel_length (ls : List (List Char)) (h : ls ≠ []) :
    (ls.flatMap encLabel).length = (List.intercalate ['.'] ls).length + 1 := by
  induction ls with
  | nil => exact absurd rfl h
  | cons a tl ih =>
    cases tl with
    | nil => simp [encLabel, List.intercalate]
    | cons b tl' =>
      have hih := ih (by simp)
      have h1 : List.intercalate ['.'] (a :: b :: tl') =
          a ++ ['.'] ++ List.intercalate ['.'] (b :: tl') := by
        simp [List.intercalate, List.intersperse]
      rw [h1]
      have h2 : ((a :: b :: tl').flatMap encLabel).length =
          (encLabel a).length + ((b :: tl').flatMap encLabel).length := by
        simp
      rw [h2]
      have h3 : (encLabel a).length = a.length + 1 := by simp [encLabel]
      rw [h3, hih]
      simp only [List.length_append, List.length_cons, List.length_nil]
      omega

/-- There are at most as many labels as encoded bytes. -/
theorem length_le_flatMap_encLabel (ls : List (List Char)) :
    ls.length ≤ (ls.flatMap encLabel).length := by
  induction ls with
  | nil => simp
  | cons a tl ih =>
    have : ((a :: tl).flatMap encLabel).length =
        (encLabel a).length + (tl.flatMap encLabel).length := by simp
    rw [this]
    simp only [encLabel, List.length_cons]
    omega

end Dns

namespace Dns

/-- Unfolding of `Hostname::parse` when the loop is known to succeed
within the `u8` byte budget. -/
theorem hostname_parse_of_go (buffer : List Nat) (n : Nat) (labs : List Label)
    (hgo : parseGo buffer.length buffer 0 [] = .ok (n, labs)) (hn : n < 256) :
    Hostname.parse buffer = .ok ⟨n, ⟨labs⟩⟩ := by
  unfold Hostname.parse
  rw [hgo]
  show (if n % 256 = n then
      (PRes.ok ⟨n % 256, ⟨labs⟩⟩ : PRes ParsedHostname)
    else .err "Parsed more bytes than can be represented in a u8") = _
  have hmod : n % 256 = n := Nat.mod_eq_of_lt hn
  rw [if_pos hmod, hmod]

/-- **C2 (counterexample).**  `valid_hostname` accepts `"a..b"` (only the
first and last characters are constrained; `.` is allowed in between), but
the encoded form `01 61 00 01 62 00` contains a zero length byte in the
middle, which the parser takes as the name terminator: parsing stops after
`"a"` with 3 bytes consumed, and the parsed labels joined by `.` are
`"a"`, not `"a..b"`. -/
theorem C2_counterexample :
    valid_hostname ['a', '.', '.', 'b'] = true ∧
    Hostname.from_string ['a', '.', '.', 'b'] =
      some ⟨[.NORMAL 1 ['a'], .NORMAL 0 [], .NORMAL 1 ['b']]⟩ ∧
    Hostname.parse
        (Hostname.mk [.NORMAL 1 ['a'], .NORMAL 0 [], .NORMAL 1 ['b']]).to_bytes =
      .ok { parsed_bytes := 3, hostname := ⟨[.NORMAL 1 ['a']]⟩ } ∧
    joinDot [.NORMAL 1 ['a']] = ['a'] ∧
    (['a'] : List Char) ≠ ['a', '.', '.', 'b'] := by
  refine ⟨by decide, by decide, by decide, by decide, by decide⟩

/-- **C2 (amended).**  For every string `s` accepted by the RFC-1123
validation whose dot-separated labels are all nonempty and at most 191
characters, and whose length is at most 253, encoding
`Hostname::from_string(s)` and re-parsing succeeds, consumes exactly the
encoded length (`s.length + 2` bytes), and returns a hostname whose
labels joined by `.` equal `s`.  (The claim as stated — for *every*
accepted string — fails: `valid_hostname` also accepts strings with empty
labels, labels of 192..255 characters, and lengths 254..255, and
round-tripping breaks on each; the counterexample shows the first.) -/
theorem C2_hostname_roundtrip (s : List Char)
    (hv : valid_hostname s = true)
    (hlab : ∀ l ∈ s.splitOn '.', l ≠ [] ∧ l.length ≤ 191)
    (hlen : s.length ≤ 253) :
    ∃ hn, Hostname.from_string s = some hn ∧
      Hostname.parse hn.to_bytes =
        .ok { parsed_bytes := s.length + 2, hostname := hn } ∧
      hn.to_bytes.length = s.length + 2 ∧
      joinDot hn.labels = s := by
  have hchars : ∀ c ∈ s, c.toNat < 128 := valid_hostname_chars s hv
  have hcond : ∀ l ∈ s.splitOn '.',
      l ≠ [] ∧ l.length ≤ 191 ∧ ∀ c ∈ l, c.toNat < 128 := fun l hl =>
    ⟨(hlab l hl).1, (hlab l hl).2,
     fun c hc => hchars c (mem_of_mem_splitOn hl hc)⟩
  have hsne : s ≠ [] := by
    intro h
    rw [h] at hv
    exact absurd hv (by decide)
  have hne : s.splitOn '.' ≠ [] := by
    intro h
    have hint := List.intercalate_splitOn s '.'
    rw [h] at hint
    exact hsne (by simpa [List.intercalate] using hint.symm)
  have hflat : ((s.splitOn '.').flatMap encLabel).length = s.length + 1 := by
    rw [flatMap_encLabel_length _ hne, List.intercalate_splitOn s '.']
  refine ⟨⟨(s.splitOn '.').map fun l => .NORMAL l.length l⟩, ?_, ?_, ?_, ?_⟩
  · simp [Hostname.from_string, hv]
  · rw [to_bytes_labels]
    have hbl : ((s.splitOn '.').flatMap encLabel ++ [0]).length = s.length + 2 := by
      simp [hflat]
    have hgo := parseGo_encode (s.splitOn '.') (s.length + 2) 0 [] hne hcond
      (le_trans (length_le_flatMap_encLabel _) (by omega))
    rw [hflat] at hgo
    have := hostname_parse_of_go ((s.splitOn '.').flatMap encLabel ++ [0])
      (0 + (s.length + 1) + 1)
      ((s.splitOn '.').map fun l => .NORMAL l.length l)
      (by rw [hbl]; simpa using hgo) (by omega)
    simpa using this
  · rw [to_bytes_labels]
    simp [hflat]
  · show List.intercalate ['.']
        ((((s.splitOn '.').map fun l => Label.NORMAL l.length l).map labelChars)) = s
    rw [List.map_map]
    have hid : ((s.splitOn '.').map (labelChars ∘ fun l => Label.NORMAL l.length l)) =
        s.splitOn '.' := List.map_id' _
    rw [hid, List.intercalate_splitOn s '.']

end Dns

namespace Dns

/-- Witness for `C2_hostname_roundtrip` at the concrete hostname `ab.c`. -/
theorem C2_witness :
    ∃ hn, Hostname.from_string ['a', 'b', '.', 'c'] = some hn ∧
      Hostname.parse hn.to_bytes =
        .ok { parsed_bytes := 6, hostname := hn } ∧
      hn.to_bytes.length = 6 ∧
      joinDot hn.labels = ['a', 'b', '.', 'c'] :=
  C2_hostname_roundtrip ['a', 'b', '.', 'c'] (by decide) (by decide) (by decide)

end Dns
